import Mathlib

/-!
# Verification of the quick-xml escape / DOM / reader / deserializer layers

Shallow embedding of the parts of the `quick-xml` crate that the checked
claims are about. Rust byte strings are modelled as `List Char`: every byte
the code inspects is ASCII and the inputs are valid UTF-8, so the byte-level
scans of the source coincide with char-level scans. Machine integers that
cannot overflow under the source's own length guards (at most 6 hex / 7
decimal digits, so values below `2^32`) are modelled as `Nat`. Fallible Rust
functions return `Except`; a Rust panic (`todo!` / `unreachable!`) is
modelled as `Option.none` of the surrounding result.
-/

namespace QuickXml

/-- Error for XML escape / unescape (`EscapeError` in `escape.rs`). Byte
ranges that the source carries purely for error reporting are omitted. -/
inductive EscapeError where
  /-- Entity with Null character -/
  | EntityWithNull : EscapeError
  /-- Unrecognized escape symbol -/
  | UnrecognizedSymbol (sym : List Char) : EscapeError
  /-- Cannot find `;` after `&` -/
  | UnterminatedEntity : EscapeError
  /-- Cannot convert Hexa to utf8 -/
  | TooLongHexadecimal : EscapeError
  /-- Character is not a valid hexadecimal value -/
  | InvalidHexadecimal (c : Char) : EscapeError
  /-- Cannot convert decimal to hexa -/
  | TooLongDecimal : EscapeError
  /-- Character is not a valid decimal value -/
  | InvalidDecimal (c : Char) : EscapeError
  /-- Not a valid unicode codepoint -/
  | InvalidCodepoint (n : Nat) : EscapeError
deriving Repr, DecidableEq

/-- `_escape` from `escape.rs`: replaces every character selected by
`escape_chars` with its replacement sequence and keeps all other characters.
The final catch-all arm corresponds to the `unreachable!` of the source: the
predicates used by the crate only select characters of the match table. -/
def _escape (escape_chars : Char → Bool) : List Char → List Char
  | [] => []
  | b :: rest =>
    (if escape_chars b then
      match b with
      | '<' => "&lt;".data
      | '>' => "&gt;".data
      | '\'' => "&apos;".data
      | '&' => "&amp;".data
      | '"' => "&quot;".data
      | '\t' => "&#9;".data
      | '\n' => "&#10;".data
      | '\r' => "&#13;".data
      | ' ' => "&#32;".data
      | c => [c]
    else [b]) ++ _escape escape_chars rest

/-- `escape` from `escape.rs`: escapes `<`, `>`, `&`, `'`, `"`. -/
def escape (raw : List Char) : List Char :=
  _escape (fun ch => ch == '<' || ch == '>' || ch == '&' || ch == '\'' || ch == '"') raw

/-- `parse_hexadecimal`'s digit loop: `code <<= 4; code += digit`. With at
most 6 digits the accumulator stays below `2^24`, so the `u32` arithmetic of
the source never wraps and `Nat` is exact. -/
def parse_hex_digits : Nat → List Char → Except EscapeError Nat
  | code, [] => .ok code
  | code, b :: rest =>
    if '0' ≤ b ∧ b ≤ '9' then parse_hex_digits (16 * code + (b.toNat - '0'.toNat)) rest
    else if 'a' ≤ b ∧ b ≤ 'f' then parse_hex_digits (16 * code + (b.toNat - 'a'.toNat + 10)) rest
    else if 'A' ≤ b ∧ b ≤ 'F' then parse_hex_digits (16 * code + (b.toNat - 'A'.toNat + 10)) rest
    else .error (.InvalidHexadecimal b)

/-- `parse_hexadecimal` from `escape.rs`: at most 6 hex digits. -/
def parse_hexadecimal (bytes : List Char) : Except EscapeError Nat :=
  if 6 < bytes.length then .error .TooLongHexadecimal
  else parse_hex_digits 0 bytes

/-- `parse_decimal`'s digit loop: `code *= 10; code += digit`. With at most
7 digits the accumulator stays below `10^7 < 2^32`, so `Nat` is exact. -/
def parse_dec_digits : Nat → List Char → Except EscapeError Nat
  | code, [] => .ok code
  | code, b :: rest =>
    if '0' ≤ b ∧ b ≤ '9' then parse_dec_digits (10 * code + (b.toNat - '0'.toNat)) rest
    else .error (.InvalidDecimal b)

/-- `parse_decimal` from `escape.rs`: at most 7 decimal digits. -/
def parse_decimal (bytes : List Char) : Except EscapeError Nat :=
  if 7 < bytes.length then .error .TooLongDecimal
  else parse_dec_digits 0 bytes

/-- `parse_number` from `escape.rs`: the digits after `&#`, with an optional
leading `x` selecting hexadecimal. Rejects the code point 0 and every value
`std::char::from_u32` rejects (surrogates and values above `0x10FFFF`). -/
def parse_number (bytes : List Char) : Except EscapeError Char := do
  let code ← match bytes with
    | 'x' :: hex_digits => parse_hexadecimal hex_digits
    | _ => parse_decimal bytes
  if code = 0 then
    .error .EntityWithNull
  else if code < 0xD800 ∨ (0xDFFF < code ∧ code < 0x110000) then
    .ok (Char.ofNat code)
  else
    .error (.InvalidCodepoint code)

/-- One resolved reference of `unescape_with`: the text between `&` and `;`
is either a `#`-prefixed character reference handled by `parse_number` or a
named entity delegated to `resolve_entity`. -/
def resolve_reference (resolve_entity : List Char → Option (List Char))
    (pat : List Char) : Except EscapeError (List Char) :=
  match pat with
  | '#' :: entity => (parse_number entity).map (fun ch => [ch])
  | _ =>
    match resolve_entity pat with
    | some value => .ok value
    | none => .error (.UnrecognizedSymbol pat)

/-- The scan loop of `unescape_with` over `memchr2_iter(b'&', b';', bytes)`,
restated as a single left-to-right pass. The first component is `none` while
copying plain text and `some pat` (reversed accumulator) while inside a
`&...;` reference. A second `&` before the closing `;`, or the end of input
inside a reference, is `UnterminatedEntity` exactly as in the source. -/
def unescape_scan (resolve_entity : List Char → Option (List Char)) :
    Option (List Char) → List Char → Except EscapeError (List Char)
  | none, [] => .ok []
  | some _, [] => .error .UnterminatedEntity
  | none, c :: rest =>
    if c = '&' then
      unescape_scan resolve_entity (some []) rest
    else do
      let tl ← unescape_scan resolve_entity none rest
      .ok (c :: tl)
  | some pat, c :: rest =>
    if c = ';' then do
      let piece ← resolve_reference resolve_entity pat.reverse
      let tl ← unescape_scan resolve_entity none rest
      .ok (piece ++ tl)
    else if c = '&' then .error .UnterminatedEntity
    else unescape_scan resolve_entity (some (c :: pat)) rest

/-- `unescape_with` from `escape.rs`. -/
def unescape_with (resolve_entity : List Char → Option (List Char))
    (raw : List Char) : Except EscapeError (List Char) :=
  unescape_scan resolve_entity none raw

/-- `resolve_xml_entity` from `escape.rs`: the five predefined XML entities. -/
def resolve_xml_entity (entity : List Char) : Option (List Char) :=
  if entity = "lt".data then some "<".data
  else if entity = "gt".data then some ">".data
  else if entity = "amp".data then some "&".data
  else if entity = "apos".data then some "'".data
  else if entity = "quot".data then some "\"".data
  else none

/-- `resolve_predefined_entity` from `escape.rs` with the `escape-html`
feature disabled: behaves like `resolve_xml_entity`. -/
def resolve_predefined_entity (entity : List Char) : Option (List Char) :=
  resolve_xml_entity entity

/-- `unescape` from `escape.rs`. -/
def unescape (raw : List Char) : Except EscapeError (List Char) :=
  unescape_with resolve_predefined_entity raw

/-- `is_xml10_char` from `reader/validation/mod.rs`: the `Char` production
of XML 1.0. -/
def is_xml10_char (ch : Char) : Bool :=
  decide (ch.toNat = 0x9 ∨ ch.toNat = 0xA ∨ ch.toNat = 0xD
    ∨ (0x20 ≤ ch.toNat ∧ ch.toNat ≤ 0xD7FF)
    ∨ (0xE000 ≤ ch.toNat ∧ ch.toNat ≤ 0xFFFD)
    ∨ (0x10000 ≤ ch.toNat ∧ ch.toNat ≤ 0x10FFFF))

end QuickXml

deriving instance DecidableEq for Except

namespace QuickXml

theorem unescape_scan_plain (r : List Char → Option (List Char)) (c : Char)
    (rest : List Char) (h : ¬ c = '&') :
    unescape_scan r none (c :: rest) =
      (unescape_scan r none rest).map (fun tl => c :: tl) := by
  simp only [unescape_scan, if_neg h]
  cases unescape_scan r none rest <;> rfl

/-- **C1.** For every string `s` — in particular for every string without a
stray `&` or `<` — escaping with the five-character policy (`escape`) and
then unescaping with the predefined XML entity resolver (`unescape`)
succeeds and gives back `s`. -/
theorem claim_C1_escape_unescape_identity (s : List Char) :
    unescape (escape s) = .ok s := by
  induction s with
  | nil => rfl
  | cons c s ih =>
    have ih2 : unescape_scan resolve_predefined_entity none
        (_escape (fun ch => ch == '<' || ch == '>' || ch == '&' || ch == '\'' || ch == '"') s)
        = .ok s := ih
    by_cases h1 : c = '<'
    · subst h1
      simp [escape, _escape, unescape, unescape_with, unescape_scan, resolve_reference,
        resolve_xml_entity, resolve_predefined_entity, ih2]
      rfl
    · by_cases h2 : c = '>'
      · subst h2
        simp [escape, _escape, unescape, unescape_with, unescape_scan, resolve_reference,
          resolve_xml_entity, resolve_predefined_entity, ih2]
        rfl
      · by_cases h3 : c = '&'
        · subst h3
          simp [escape, _escape, unescape, unescape_with, unescape_scan, resolve_reference,
            resolve_xml_entity, resolve_predefined_entity, ih2]
          rfl
        · by_cases h4 : c = '\''
          · subst h4
            simp [escape, _escape, unescape, unescape_with, unescape_scan, resolve_reference,
              resolve_xml_entity, resolve_predefined_entity, ih2]
            rfl
          · by_cases h5 : c = '"'
            · subst h5
              simp [escape, _escape, unescape, unescape_with, unescape_scan, resolve_reference,
                resolve_xml_entity, resolve_predefined_entity, ih2]
              rfl
            · have hp : (c == '<' || c == '>' || c == '&' || c == '\'' || c == '"') = false := by
                simp [h1, h2, h3, h4, h5]
              have hesc : escape (c :: s) = c :: escape s := by
                simp [escape, _escape, hp]
              have ih3 : unescape_scan resolve_predefined_entity none (escape s) = .ok s := ih
              show unescape_scan resolve_predefined_entity none (escape (c :: s)) = .ok (c :: s)
              rw [hesc, unescape_scan_plain _ _ _ h3, ih3]
              rfl

end QuickXml

namespace QuickXml

/-- A hexadecimal digit as accepted by `parse_hexadecimal`. -/
def isHexDigit (c : Char) : Prop :=
  ('0' ≤ c ∧ c ≤ '9') ∨ ('a' ≤ c ∧ c ≤ 'f') ∨ ('A' ≤ c ∧ c ≤ 'F')

/-- Numeric value of one hexadecimal digit, matching the digit arithmetic of
`parse_hexadecimal`. -/
def hexDigitVal (c : Char) : Nat :=
  if '0' ≤ c ∧ c ≤ '9' then c.toNat - '0'.toNat
  else if 'a' ≤ c ∧ c ≤ 'f' then c.toNat - 'a'.toNat + 10
  else c.toNat - 'A'.toNat + 10

/-- Value of a big-endian string of hexadecimal digits. -/
def hexVal (ds : List Char) : Nat :=
  ds.foldl (fun a c => 16 * a + hexDigitVal c) 0

/-- A decimal digit as accepted by `parse_decimal`. -/
def isDecDigit (c : Char) : Prop := '0' ≤ c ∧ c ≤ '9'

/-- Value of a big-endian string of decimal digits. -/
def decVal (ds : List Char) : Nat :=
  ds.foldl (fun a c => 10 * a + (c.toNat - '0'.toNat)) 0

instance : DecidablePred isDecDigit := fun c => by
  unfold isDecDigit; infer_instance

instance : DecidablePred isHexDigit := fun c => by
  unfold isHexDigit; infer_instance

theorem parse_hex_digits_ok (ds : List Char) :
    ∀ acc, (∀ c ∈ ds, isHexDigit c) →
      parse_hex_digits acc ds = .ok (ds.foldl (fun a c => 16 * a + hexDigitVal c) acc) := by
  induction ds with
  | nil => intro acc _; rfl
  | cons c ds ih =>
    intro acc hds
    have hc : isHexDigit c := hds c (by simp)
    have hrest : ∀ d ∈ ds, isHexDigit d := fun d hd => hds d (by simp [hd])
    rcases hc with h | h | h
    · rw [parse_hex_digits, if_pos h, ih _ hrest]
      simp [List.foldl_cons, hexDigitVal, if_pos h]
    · have h9 : ¬ ('0' ≤ c ∧ c ≤ '9') := fun hb => absurd (le_trans h.1 hb.2) (by decide)
      rw [parse_hex_digits, if_neg h9, if_pos h, ih _ hrest]
      simp [List.foldl_cons, hexDigitVal, if_neg h9, if_pos h]
    · have h9 : ¬ ('0' ≤ c ∧ c ≤ '9') := fun hb => absurd (le_trans h.1 hb.2) (by decide)
      have ha : ¬ ('a' ≤ c ∧ c ≤ 'f') := fun hb => absurd (le_trans hb.1 h.2) (by decide)
      rw [parse_hex_digits, if_neg h9, if_neg ha, if_pos h, ih _ hrest]
      simp [List.foldl_cons, hexDigitVal, if_neg h9, if_neg ha]

theorem parse_dec_digits_ok (ds : List Char) :
    ∀ acc, (∀ c ∈ ds, isDecDigit c) →
      parse_dec_digits acc ds = .ok (ds.foldl (fun a c => 10 * a + (c.toNat - '0'.toNat)) acc) := by
  induction ds with
  | nil => intro acc _; rfl
  | cons c ds ih =>
    intro acc hds
    have hc : '0' ≤ c ∧ c ≤ '9' := hds c (by simp)
    have hrest : ∀ d ∈ ds, isDecDigit d := fun d hd => hds d (by simp [hd])
    rw [parse_dec_digits, if_pos hc, ih _ hrest]
    rfl

theorem unescape_scan_collect (r : List Char → Option (List Char)) (ds : List Char) :
    ∀ pat rest, (∀ c ∈ ds, ¬ c = ';' ∧ ¬ c = '&') →
      unescape_scan r (some pat) (ds ++ rest) =
        unescape_scan r (some (ds.reverse ++ pat)) rest := by
  induction ds with
  | nil => intro pat rest _; rfl
  | cons c ds ih =>
    intro pat rest hds
    have hc := hds c (by simp)
    rw [List.cons_append, unescape_scan, if_neg hc.1, if_neg hc.2,
      ih (c :: pat) rest (fun d hd => hds d (by simp [hd]))]
    simp

theorem except_ok_bind {ε α β : Type} (a : α) (f : α → Except ε β) :
    (do let y ← Except.ok a; f y) = f a := rfl

theorem parse_number_not_x (ds : List Char) (h : ds.head? ≠ some 'x') :
    parse_number ds = (parse_decimal ds).bind fun code =>
      if code = 0 then .error .EntityWithNull
      else if code < 0xD800 ∨ (0xDFFF < code ∧ code < 0x110000) then .ok (Char.ofNat code)
      else .error (.InvalidCodepoint code) := by
  cases ds with
  | nil => rfl
  | cons c rest =>
    have hc : ¬ c = 'x' := by simpa using h
    simp only [parse_number]
    split
    · simp_all
    · cases parse_decimal (c :: rest) <;> rfl

/-- **C2 (counterexample).** The claim states that `unescape` rejects every
character reference whose code point is not an XML `Char`. The code point 1
(`U+0001`) is not an XML 1.0 `Char` (`is_xml10_char` is false on it), yet
`unescape "&#1;"` succeeds and produces that character instead of failing. -/
theorem claim_C2_counterexample :
    is_xml10_char (Char.ofNat 1) = false
    ∧ unescape "&#1;".data = .ok [Char.ofNat 1] := by
  decide

theorem dec_digits_not_special (ds : List Char) (hd : ∀ c ∈ ds, isDecDigit c) :
    ∀ c ∈ ds, ¬ c = ';' ∧ ¬ c = '&' := by
  intro c hcm
  have h1 := hd c hcm
  constructor <;> intro he <;> subst he <;> revert h1 <;> decide

theorem unescape_single_ref (ds : List Char)
    (hns : ∀ c ∈ ds, ¬ c = ';' ∧ ¬ c = '&') :
    unescape ('&' :: '#' :: (ds ++ [';'])) = (parse_number ds).map (fun ch => [ch]) := by
  show unescape_scan resolve_predefined_entity none ('&' :: '#' :: (ds ++ [';'])) = _
  rw [unescape_scan, if_pos rfl]
  rw [unescape_scan, if_neg (by decide), if_neg (by decide)]
  rw [unescape_scan_collect _ ds ['#'] [';'] hns]
  rw [unescape_scan, if_pos rfl]
  rw [show (ds.reverse ++ ['#']).reverse = '#' :: ds by simp]
  rw [show resolve_reference resolve_predefined_entity ('#' :: ds)
      = (parse_number ds).map (fun ch => [ch]) from rfl]
  cases parse_number ds <;> rfl

theorem parse_number_hex_digits (ds : List Char)
    (hd : ∀ c ∈ ds, isHexDigit c) (hlen : ds.length ≤ 6) :
    parse_number ('x' :: ds) =
      if hexVal ds = 0 then .error .EntityWithNull
      else if hexVal ds < 0xD800 ∨ (0xDFFF < hexVal ds ∧ hexVal ds < 0x110000) then
        .ok (Char.ofNat (hexVal ds))
      else .error (.InvalidCodepoint (hexVal ds)) := by
  have hph : parse_hexadecimal ds = .ok (hexVal ds) := by
    rw [parse_hexadecimal, if_neg (by omega)]
    exact parse_hex_digits_ok ds 0 hd
  simp only [parse_number, hph, except_ok_bind]

theorem parse_number_dec_digits (ds : List Char)
    (hd : ∀ c ∈ ds, isDecDigit c) (hlen : ds.length ≤ 7) :
    parse_number ds =
      if decVal ds = 0 then .error .EntityWithNull
      else if decVal ds < 0xD800 ∨ (0xDFFF < decVal ds ∧ decVal ds < 0x110000) then
        .ok (Char.ofNat (decVal ds))
      else .error (.InvalidCodepoint (decVal ds)) := by
  have hx : ds.head? ≠ some 'x' := by
    cases ds with
    | nil => simp
    | cons c rest =>
      have h1 := hd c (by simp)
      simp only [List.head?_cons, ne_eq, Option.some.injEq]
      intro he
      subst he
      revert h1
      decide
  have hpd : parse_decimal ds = .ok (decVal ds) := by
    rw [parse_decimal, if_neg (by omega)]
    exact parse_dec_digits_ok ds 0 hd
  rw [parse_number_not_x ds hx, hpd]
  rfl

/-- **C2 (amended).** `unescape` parses `&#xHHHH;` and `&#NNNN;` character
references: it rejects hexadecimal references with more than six digits,
decimal references with more than seven digits, every reference whose value
is the code point 0 (NUL), and every reference whose value is not a valid
Unicode scalar value (the surrogate range and values above `0x10FFFF`) —
but not every code point outside the XML `Char` production, as `&#1;`
shows. Every other character reference is replaced by the referenced
character. -/
theorem claim_C2_amended :
    (∀ ds : List Char, 6 < ds.length →
        parse_number ('x' :: ds) = .error .TooLongHexadecimal)
  ∧ (∀ ds : List Char, ds.head? ≠ some 'x' → 7 < ds.length →
        parse_number ds = .error .TooLongDecimal)
  ∧ (∀ ds : List Char, (∀ c ∈ ds, isHexDigit c) → ds.length ≤ 6 →
        hexVal ds = 0 →
        parse_number ('x' :: ds) = .error .EntityWithNull)
  ∧ (∀ ds : List Char, (∀ c ∈ ds, isHexDigit c) → ds.length ≤ 6 →
        hexVal ds ≠ 0 →
        ¬ (hexVal ds < 0xD800 ∨ (0xDFFF < hexVal ds ∧ hexVal ds < 0x110000)) →
        parse_number ('x' :: ds) = .error (.InvalidCodepoint (hexVal ds)))
  ∧ (∀ ds : List Char, (∀ c ∈ ds, isHexDigit c) → ds.length ≤ 6 →
        hexVal ds ≠ 0 →
        (hexVal ds < 0xD800 ∨ (0xDFFF < hexVal ds ∧ hexVal ds < 0x110000)) →
        parse_number ('x' :: ds) = .ok (Char.ofNat (hexVal ds)))
  ∧ (∀ ds : List Char, (∀ c ∈ ds, isDecDigit c) → ds.length ≤ 7 →
        decVal ds = 0 →
        unescape ('&' :: '#' :: (ds ++ [';'])) = .error .EntityWithNull)
  ∧ (∀ ds : List Char, (∀ c ∈ ds, isDecDigit c) → ds.length ≤ 7 →
        decVal ds ≠ 0 →
        ¬ (decVal ds < 0xD800 ∨ (0xDFFF < decVal ds ∧ decVal ds < 0x110000)) →
        unescape ('&' :: '#' :: (ds ++ [';'])) = .error (.InvalidCodepoint (decVal ds)))
  ∧ (∀ ds : List Char, (∀ c ∈ ds, isDecDigit c) → ds.length ≤ 7 →
        decVal ds ≠ 0 →
        (decVal ds < 0xD800 ∨ (0xDFFF < decVal ds ∧ decVal ds < 0x110000)) →
        unescape ('&' :: '#' :: (ds ++ [';'])) = .ok [Char.ofNat (decVal ds)])
  ∧ unescape "&#0;".data = .error .EntityWithNull
  ∧ unescape "&#xD800;".data = .error (.InvalidCodepoint 0xD800)
  ∧ unescape "&#1;".data = .ok [Char.ofNat 1] := by
  refine ⟨?_, ?_, ?_, ?_, ?_, ?_, ?_, ?_, by decide, by decide, by decide⟩
  · intro ds h
    simp only [parse_number, parse_hexadecimal, if_pos h]
    rfl
  · intro ds hx h
    rw [parse_number_not_x ds hx, parse_decimal, if_pos h]
    rfl
  · intro ds hd hlen h0
    rw [parse_number_hex_digits ds hd hlen, if_pos h0]
  · intro ds hd hlen hnz hval
    rw [parse_number_hex_digits ds hd hlen, if_neg hnz, if_neg hval]
  · intro ds hd hlen hnz hval
    rw [parse_number_hex_digits ds hd hlen, if_neg hnz, if_pos hval]
  · intro ds hd hlen h0
    rw [unescape_single_ref ds (dec_digits_not_special ds hd),
      parse_number_dec_digits ds hd hlen, if_pos h0]
    rfl
  · intro ds hd hlen hnz hval
    rw [unescape_single_ref ds (dec_digits_not_special ds hd),
      parse_number_dec_digits ds hd hlen, if_neg hnz, if_neg hval]
    rfl
  · intro ds hd hlen hnz hval
    rw [unescape_single_ref ds (dec_digits_not_special ds hd),
      parse_number_dec_digits ds hd hlen, if_neg hnz, if_pos hval]
    rfl

/-- **C2 (witness).** The amended theorem applied at concrete references:
an eight-digit hexadecimal and an eight-digit decimal reference (too long),
the NUL references `&#x0;` and `&#00;`, the non-scalar references
`&#x110000;` and `&#55296;` (a surrogate), and the accepted references
`&#x41;` and `&#65;`. -/
theorem claim_C2_amended_witness :
    parse_number ('x' :: "1234567".data) = .error .TooLongHexadecimal
  ∧ parse_number "12345678".data = .error .TooLongDecimal
  ∧ parse_number ('x' :: "0".data) = .error .EntityWithNull
  ∧ parse_number ('x' :: "110000".data) = .error (.InvalidCodepoint (hexVal "110000".data))
  ∧ parse_number ('x' :: "41".data) = .ok (Char.ofNat (hexVal "41".data))
  ∧ unescape ('&' :: '#' :: ("00".data ++ [';'])) = .error .EntityWithNull
  ∧ unescape ('&' :: '#' :: ("55296".data ++ [';']))
      = .error (.InvalidCodepoint (decVal "55296".data))
  ∧ unescape ('&' :: '#' :: ("65".data ++ [';'])) = .ok [Char.ofNat (decVal "65".data)] := by
  obtain ⟨h1, h2, h3, h4, h5, h6, h7, h8, -⟩ := claim_C2_amended
  exact ⟨h1 "1234567".data (by decide), h2 "12345678".data (by decide) (by decide),
    h3 "0".data (by decide) (by decide) (by decide),
    h4 "110000".data (by decide) (by decide) (by decide) (by decide),
    h5 "41".data (by decide) (by decide) (by decide) (by decide),
    h6 "00".data (by decide) (by decide) (by decide),
    h7 "55296".data (by decide) (by decide) (by decide) (by decide),
    h8 "65".data (by decide) (by decide) (by decide) (by decide)⟩

end QuickXml

namespace QuickXml

/-- **C7.** `resolve_xml_entity` returns `Some` for exactly the five entity
names `lt`, `gt`, `amp`, `apos`, `quot`, yielding `<`, `>`, `&`, `'`, `"`
respectively, and `None` for every other input; `resolve_predefined_entity`
behaves identically when the `escape-html` feature is disabled. -/
theorem claim_C7_predefined_entities :
    resolve_xml_entity "lt".data = some "<".data
  ∧ resolve_xml_entity "gt".data = some ">".data
  ∧ resolve_xml_entity "amp".data = some "&".data
  ∧ resolve_xml_entity "apos".data = some "'".data
  ∧ resolve_xml_entity "quot".data = some "\"".data
  ∧ (∀ s : List Char,
      s ∉ ["lt".data, "gt".data, "amp".data, "apos".data, "quot".data] →
      resolve_xml_entity s = none)
  ∧ (∀ s : List Char, resolve_predefined_entity s = resolve_xml_entity s) := by
  refine ⟨by decide, by decide, by decide, by decide, by decide, ?_, fun s => rfl⟩
  intro s hs
  simp only [List.mem_cons, List.not_mem_nil, or_false, not_or] at hs
  obtain ⟨h1, h2, h3, h4, h5⟩ := hs
  rw [resolve_xml_entity, if_neg h1, if_neg h2, if_neg h3, if_neg h4, if_neg h5]

/-- **C7 (witness).** The non-predefined entity name `foo` resolves to
`none`. -/
theorem claim_C7_witness : resolve_xml_entity "foo".data = none :=
  claim_C7_predefined_entities.2.2.2.2.2.1 "foo".data (by decide)

/-- [Replacement text] of a resolved entity reference
(`ReplacementText` in `reader/resolver.rs`). The `External` variant wraps a
byte stream (`Box<dyn BufRead>`); it is never produced by the predefined
resolver, and a stream has no shallow value embedding, so it is modelled as
a bare marker. -/
inductive ReplacementText where
  | Internal (bytes : List Char) : ReplacementText
  | External : ReplacementText
deriving Repr, DecidableEq

/-- The error a reader reports for an entity name its resolver does not
know (`Error::UnrecognizedGeneralEntity`). -/
inductive ReaderError where
  | UnrecognizedGeneralEntity (name : List Char) : ReaderError
deriving Repr, DecidableEq

/-- `<PredefinedEntityResolver as EntityResolver>::resolve` from
`reader/resolver.rs`: resolves only the five predefined entities, with `lt`
and `amp` mapped to the character-reference forms `&#60;` / `&#38;`. -/
def PredefinedEntityResolver_resolve (entity : List Char) : Option ReplacementText :=
  if entity = "lt".data then some (.Internal "&#60;".data)
  else if entity = "gt".data then some (.Internal ">".data)
  else if entity = "amp".data then some (.Internal "&#38;".data)
  else if entity = "apos".data then some (.Internal "'".data)
  else if entity = "quot".data then some (.Internal "\"".data)
  else none

/-- Modelled from the spec: the reader loop that consumes
`EntityResolver::resolve` is not under `src/` — only `reader/resolver.rs`,
which declares the trait, is. Per the documented contract of
`EntityResolver::resolve` (a `None` means "an `Error::UnrecognizedGeneralEntity`
will be returned by a reader") and spec §4.5 step 4, a `None` result makes
the reader fail with `UnrecognizedGeneralEntity`. -/
def reader_resolve_general_entity (entity : List Char) : Except ReaderError ReplacementText :=
  match PredefinedEntityResolver_resolve entity with
  | some r => .ok r
  | none => .error (.UnrecognizedGeneralEntity entity)

/-- **C10.** The reader-level `PredefinedEntityResolver::resolve` returns a
replacement text for exactly the five predefined entity names; unlike the
escape-layer resolver it maps `lt` to `&#60;` and `amp` to `&#38;` (not to
the literal characters), while `gt`, `apos`, `quot` map to the literal
characters; every other name resolves to `None`, which makes the reader
fail with `UnrecognizedGeneralEntity`. -/
theorem claim_C10_reader_resolver :
    PredefinedEntityResolver_resolve "lt".data = some (.Internal "&#60;".data)
  ∧ PredefinedEntityResolver_resolve "gt".data = some (.Internal ">".data)
  ∧ PredefinedEntityResolver_resolve "amp".data = some (.Internal "&#38;".data)
  ∧ PredefinedEntityResolver_resolve "apos".data = some (.Internal "'".data)
  ∧ PredefinedEntityResolver_resolve "quot".data = some (.Internal "\"".data)
  ∧ PredefinedEntityResolver_resolve "lt".data ≠ some (.Internal "<".data)
  ∧ PredefinedEntityResolver_resolve "amp".data ≠ some (.Internal "&".data)
  ∧ (∀ s : List Char,
      s ∉ ["lt".data, "gt".data, "amp".data, "apos".data, "quot".data] →
      PredefinedEntityResolver_resolve s = none
      ∧ reader_resolve_general_entity s = .error (.UnrecognizedGeneralEntity s)) := by
  refine ⟨by decide, by decide, by decide, by decide, by decide, by decide, by decide, ?_⟩
  intro s hs
  simp only [List.mem_cons, List.not_mem_nil, or_false, not_or] at hs
  obtain ⟨h1, h2, h3, h4, h5⟩ := hs
  have hr : PredefinedEntityResolver_resolve s = none := by
    rw [PredefinedEntityResolver_resolve, if_neg h1, if_neg h2, if_neg h3, if_neg h4, if_neg h5]
  exact ⟨hr, by rw [reader_resolve_general_entity, hr]⟩

/-- **C10 (witness).** The entity name `nbsp` is not predefined: the
resolver returns `none` and the reader reports `UnrecognizedGeneralEntity`. -/
theorem claim_C10_witness :
    PredefinedEntityResolver_resolve "nbsp".data = none
    ∧ reader_resolve_general_entity "nbsp".data
        = .error (.UnrecognizedGeneralEntity "nbsp".data) :=
  claim_C10_reader_resolver.2.2.2.2.2.2.2 "nbsp".data (by decide)

end QuickXml

namespace QuickXml

/-- The `ends_with(b"]]")` test of `CDataIterator::next`, applied to the
reversed prefix accumulator: true iff the scanned prefix ends with `]]`. -/
def ends_close_bracket (cur : List Char) : Bool :=
  match cur with
  | ']' :: ']' :: _ => true
  | _ => false

/-- `CDataIterator::next` from `events/mod.rs`, restated as one left-to-right
pass over the content. `cur` is the reversed not-yet-emitted prefix of the
current section. The iterator looks for the first `>` whose preceding text
ends with `]]` and splits *before* that `>` (`split_at(gt)`), so the emitted
section keeps the `]]` and the next section starts with `>`; when no such
`>` remains, the rest is emitted as the final section. -/
def cdata_split (cur : List Char) : List Char → List (List Char)
  | [] => [cur.reverse]
  | c :: rest =>
    if c = '>' ∧ ends_close_bracket cur then
      cur.reverse :: cdata_split [c] rest
    else
      cdata_split (c :: cur) rest

/-- `BytesCData::escaped` from `events/mod.rs`: the list of CDATA sections
its iterator yields for `content`. -/
def escaped_sections (content : List Char) : List (List Char) :=
  cdata_split [] content

theorem cdata_split_join (l : List Char) :
    ∀ cur, (cdata_split cur l).flatten = cur.reverse ++ l := by
  induction l with
  | nil => intro cur; simp [cdata_split]
  | cons c rest ih =>
    intro cur
    rw [cdata_split]
    by_cases h : c = '>' ∧ ends_close_bracket cur
    · rw [if_pos h, List.flatten_cons, ih [c]]
      simp
    · rw [if_neg h, ih (c :: cur)]
      simp

theorem infix_snoc {α : Type} (t xs : List α) (c : α) (h : t <:+: xs ++ [c]) :
    t <:+: xs ∨ t <:+ (xs ++ [c]) := by
  obtain ⟨s, u, hsu⟩ := h
  rcases List.eq_nil_or_concat u with rfl | ⟨u', d, rfl⟩
  · right
    exact ⟨s, by simpa using hsu⟩
  · left
    have h2 : (s ++ t ++ u') ++ [d] = xs ++ [c] := by
      simpa [List.append_assoc] using hsu
    have h3 := List.append_inj' h2 rfl
    exact ⟨s, u', h3.1⟩

theorem suffix_close_pat {xs : List Char} {c : Char}
    (h : [']', ']', '>'] <:+ xs ++ [c]) :
    c = '>' ∧ ∃ ys, xs = ys ++ [']', ']'] := by
  obtain ⟨s, hs⟩ := h
  have h2 : (s ++ [']', ']']) ++ ['>'] = xs ++ [c] := by
    simpa [List.append_assoc] using hs
  have h3 := List.append_inj' h2 rfl
  exact ⟨(by simpa using h3.2 : '>' = c).symm, s, h3.1.symm⟩

theorem cdata_split_no_close (l : List Char) :
    ∀ cur, ¬ ([']', ']', '>'] <:+: cur.reverse) →
      ∀ sec ∈ cdata_split cur l, ¬ ([']', ']', '>'] <:+: sec) := by
  induction l with
  | nil =>
    intro cur hcur sec hsec
    rw [cdata_split, List.mem_singleton] at hsec
    exact hsec ▸ hcur
  | cons c rest ih =>
    intro cur hcur sec hsec
    rw [cdata_split] at hsec
    by_cases h : c = '>' ∧ ends_close_bracket cur
    · rw [if_pos h, List.mem_cons] at hsec
      rcases hsec with rfl | hsec
      · exact hcur
      · refine ih [c] ?_ sec hsec
        intro hin
        have := hin.length_le
        simp at this
    · rw [if_neg h] at hsec
      refine ih (c :: cur) ?_ sec hsec
      intro hin
      rw [List.reverse_cons] at hin
      rcases infix_snoc _ _ _ hin with hl | hr
      · exact hcur hl
      · obtain ⟨hc, ys, hys⟩ := suffix_close_pat hr
        apply h
        refine ⟨hc, ?_⟩
        have hcur2 : cur = ']' :: ']' :: ys.reverse := by
          have := congrArg List.reverse hys
          simpa using this
        rw [hcur2]
        rfl

/-- **C5.** For every input string, the CDATA sections yielded by the
iterator created by `BytesCData::escaped` concatenate back to the input,
and no yielded section contains the sequence `]]>`. -/
theorem claim_C5_cdata_sections (s : List Char) :
    (escaped_sections s).flatten = s
    ∧ ∀ sec ∈ escaped_sections s, ¬ ([']', ']', '>'] <:+: sec) :=
  ⟨by simpa using cdata_split_join s [],
   cdata_split_no_close s [] (by intro hin; have := hin.length_le; simp at this)⟩

/-- **C5 (witness).** The input `foo]]>bar` splits as `foo]]` / `>bar`;
the first section is `]]>`-free by the claim theorem. -/
theorem claim_C5_witness :
    escaped_sections "foo]]>bar".data = ["foo]]".data, ">bar".data]
    ∧ ¬ ([']', ']', '>'] <:+: "foo]]".data) :=
  ⟨by decide,
   (claim_C5_cdata_sections "foo]]>bar".data).2 "foo]]".data (by decide)⟩

end QuickXml

namespace QuickXml

/-- The start-tag payload (`BytesStart` in `events/mod.rs`): the tag name
and the lazily parsed attributes, modelled as decoded name/value pairs
(the source stores the raw `buf` plus `name_len` and parses attributes on
iteration). -/
structure BytesStart where
  name : List Char
  attrs : List (List Char × List Char)
deriving Repr, DecidableEq

/-- `Event` from `events/mod.rs`. Each payload is modelled by its decoded
content; `End` carries the tag name, `Start`/`Empty` the full start payload. -/
inductive Event where
  | Start (e : BytesStart) : Event
  | End (e : List Char) : Event
  | Empty (e : BytesStart) : Event
  | Text (e : List Char) : Event
  | CData (e : List Char) : Event
  | Comment (e : List Char) : Event
  | Decl (e : List Char) : Event
  | PI (e : List Char) : Event
  | DocType (e : List Char) : Event
  | GeneralRef (e : List Char) : Event
  | Eof : Event
deriving Repr, DecidableEq

mutual
/-- `Element` from `reader/dom.rs`: a tag and a deque of child nodes. -/
inductive Element where
  | mk (tag : BytesStart) (children : List Node) : Element

/-- `Node` from `reader/dom.rs`. -/
inductive Node where
  | element (e : Element) : Node
  | text (s : List Char) : Node
  | space (s : List Char) : Node
end

def Element.tag : Element → BytesStart
  | .mk t _ => t

def Element.children : Element → List Node
  | .mk _ c => c

/-- Modelled from the spec: `is_xml_space`-style character test. The
`BytesText::is_xml_spaces` / `BytesCData` helpers are not under `src/`;
spec §3 defines a `Space` node as a run of the XML whitespace characters
`\t`, `\n`, `\r` and space. -/
def is_xml_space (c : Char) : Bool :=
  c == ' ' || c == '\t' || c == '\n' || c == '\r'

/-- Modelled from the spec: `is_xml_spaces` (not under `src/`) is true iff
every character of the content is XML whitespace. -/
def is_xml_spaces (s : List Char) : Bool :=
  s.all is_xml_space

/-- Modelled from the spec: `xml_content` (not under `src/`) returns the
decoded character content of a text or CDATA event. Events of this
embedding already carry decoded content, so it is the identity. -/
def xml_content (s : List Char) : List Char := s

/-- Temporary storage for unprocessed event (`Unprocessed` in
`reader/dom.rs`). -/
inductive Unprocessed where
  | Empty (e : BytesStart) : Unprocessed
  | Start (e : BytesStart) : Unprocessed
  | End (e : List Char) : Unprocessed
  | Text (e : List Char) : Unprocessed
  | CData (e : List Char) : Unprocessed
deriving Repr, DecidableEq

/-- `Unprocessed::into_event` from `reader/dom.rs`. -/
def Unprocessed.into_event : Unprocessed → Event
  | .Empty e => .Empty e
  | .Start e => .Start e
  | .End e => .End e
  | .Text e => .Text e
  | .CData e => .CData e

/-- `FeedResult` from `reader/dom.rs`. -/
inductive FeedResult where
  | NeedData : FeedResult
  | NoData : FeedResult
  | Element (e : QuickXml.Element) : FeedResult
  | Text (s : List Char) (next : Event) : FeedResult
  | Space (s : List Char) (next : Event) : FeedResult

/-- `DomBuilder` from `reader/dom.rs`. `parents` is the `Vec` of open
elements with the top of the stack at the head of the list. -/
structure DomBuilder where
  parents : List Element
  text : Option (List Char)
  spaces_only : Bool

/-- `DomBuilder::new`. -/
def DomBuilder.new : DomBuilder :=
  { parents := [], text := none, spaces_only := true }

/-- `DomBuilder::append_text`. -/
def DomBuilder.append_text (b : DomBuilder) (t : List Char) : DomBuilder :=
  { b with text :=
      match b.text with
      | none => some t
      | some p => some (p ++ t) }

/-- The `match unprocessed` block at the end of `DomBuilder::feed`
(processing after the pending text node has been flushed). A `none` result
models the `unreachable!` panic on an unmatched `End`. -/
def DomBuilder.process (b : DomBuilder) : Unprocessed → Option (FeedResult × DomBuilder)
  | .Start e =>
    some (.NeedData, { b with parents := Element.mk e [] :: b.parents })
  | .End _ =>
    match b.parents with
    | element :: rest =>
      match rest with
      | parent :: rest2 =>
        let parent2 := Element.mk parent.tag (parent.children ++ [Node.element element])
        some (.NeedData, { b with parents := parent2 :: rest2 })
      | [] =>
        some (.Element element, { b with parents := [], spaces_only := true })
    | [] => none
  | .Empty e =>
    let element := Element.mk e []
    match b.parents with
    | parent :: rest =>
      let parent2 := Element.mk parent.tag (parent.children ++ [Node.element element])
      some (.NeedData, { b with parents := parent2 :: rest })
    | [] =>
      some (.Element element, { b with spaces_only := true })
  | .Text e => some (.NeedData, b.append_text (xml_content e))
  | .CData e => some (.NeedData, b.append_text (xml_content e))

/-- The `if create_text_node` block of `DomBuilder::feed`: flush the pending
text as a `Text`/`Space` child (or emit it as the `FeedResult` when there is
no open parent), then process the unprocessed event. -/
def DomBuilder.feed_markup (b : DomBuilder) (unprocessed : Unprocessed)
    (create_text_node : Bool) : Option (FeedResult × DomBuilder) :=
  if create_text_node then
    let so := b.spaces_only
    let b1 := { b with spaces_only := true }
    match b1.text with
    | some t =>
      match b1.parents with
      | parent :: rest =>
        let node := if so then Node.space t else Node.text t
        let parent2 := Element.mk parent.tag (parent.children ++ [node])
        DomBuilder.process { b1 with text := none, parents := parent2 :: rest } unprocessed
      | [] =>
        if so then some (.Space t unprocessed.into_event, { b1 with text := none })
        else some (.Text t unprocessed.into_event, { b1 with text := none })
    | none => DomBuilder.process b1 unprocessed
  else
    DomBuilder.process b unprocessed

/-- `DomBuilder::feed` from `reader/dom.rs`. `none` models a panic: the
source hits `todo!` on `GeneralRef`, `Decl` and `DocType` events. The
encoding errors of the source (`xml_content` is fallible there) cannot occur
over already-decoded content, so the `Result` layer is dropped. -/
def DomBuilder.feed (b : DomBuilder) : Event → Option (FeedResult × DomBuilder)
  | .Comment _ => some (.NeedData, b)
  | .PI _ => some (.NeedData, b)
  | .GeneralRef _ => none
  | .Decl _ => none
  | .DocType _ => none
  | .Eof =>
    let so := b.spaces_only
    let b1 := { b with spaces_only := true }
    match b1.text with
    | some t =>
      if so then some (.Space t .Eof, { b1 with text := none })
      else some (.Text t .Eof, { b1 with text := none })
    | none => some (.NoData, b1)
  | .Start e => b.feed_markup (.Start e) true
  | .End e => b.feed_markup (.End e) true
  | .Empty e => b.feed_markup (.Empty e) true
  | .Text e =>
    let b1 := if b.spaces_only then { b with spaces_only := is_xml_spaces e } else b
    b1.feed_markup (.Text e) false
  | .CData e =>
    ({ b with spaces_only := false }).feed_markup (.CData e) false

/-- Feeding a list of events in order; `none` as soon as one `feed`
panics. -/
def DomBuilder.feedAll (b : DomBuilder) : List Event → Option (List FeedResult × DomBuilder)
  | [] => some ([], b)
  | e :: evs =>
    match b.feed e with
    | some (r, b1) =>
      match b1.feedAll evs with
      | some (rs, b2) => some (r :: rs, b2)
      | none => none
    | none => none

end QuickXml

namespace QuickXml

/-- **C3 (counterexample).** The claim states that `DomBuilder::feed`
consumes `Decl` and `DocType` events without error, returning `NeedData`.
In the code both arms are `todo!("unexpected ...")`: feeding an XML
declaration (or a DOCTYPE) to a fresh builder panics instead of returning
`NeedData`. -/
theorem claim_C3_counterexample :
    DomBuilder.new.feed (.Decl "xml version=1.0".data) = none
    ∧ DomBuilder.new.feed (.DocType "root".data) = none
    ∧ (none : Option (FeedResult × DomBuilder)) ≠ some (.NeedData, DomBuilder.new) :=
  ⟨rfl, rfl, fun h => Option.noConfusion h⟩

/-- **C3 (amended).** `DomBuilder::feed` silently skips only `Comment` and
`PI` events, consuming them without error and without changing the tree
under construction, returning `FeedResult::NeedData`; `Decl` and `DocType`
events are not handled by `feed` — the implementation panics on a `todo!`
arm. -/
theorem claim_C3_amended (b : DomBuilder) (s : List Char) :
    b.feed (.Comment s) = some (.NeedData, b)
    ∧ b.feed (.PI s) = some (.NeedData, b)
    ∧ b.feed (.Decl s) = none
    ∧ b.feed (.DocType s) = none :=
  ⟨rfl, rfl, rfl, rfl⟩

end QuickXml

namespace QuickXml

/-- Events that may appear inside a text run fed to the DOM builder:
text and CDATA content, possibly interleaved with comments and PIs. -/
def run_event : Event → Bool
  | .Text _ => true
  | .CData _ => true
  | .Comment _ => true
  | .PI _ => true
  | _ => false

/-- Events of a run that contribute content (text and CDATA). -/
def content_event : Event → Bool
  | .Text _ => true
  | .CData _ => true
  | _ => false

/-- Concatenation of the decoded contents of a run, in document order. -/
def run_content : List Event → List Char
  | [] => []
  | .Text s :: evs => xml_content s ++ run_content evs
  | .CData s :: evs => xml_content s ++ run_content evs
  | _ :: evs => run_content evs

/-- The value the builder's `spaces_only` flag has after a run that started
with a `true` flag: every `Text` event must be all-whitespace and any
`CData` event clears the flag for good. -/
def run_spaces_flag : List Event → Bool
  | [] => true
  | .Text s :: evs => is_xml_spaces s && run_spaces_flag evs
  | .CData _ :: _ => false
  | _ :: evs => run_spaces_flag evs

/-- The builder's pending `text` buffer after a run. -/
def text_after : Option (List Char) → List Event → Option (List Char)
  | o, [] => o
  | o, .Text s :: evs => text_after (some (o.getD [] ++ xml_content s)) evs
  | o, .CData s :: evs => text_after (some (o.getD [] ++ xml_content s)) evs
  | o, _ :: evs => text_after o evs

theorem feed_text_step (b : DomBuilder) (s : List Char) :
    b.feed (.Text s) = some (.NeedData,
      { parents := b.parents,
        text := some (b.text.getD [] ++ xml_content s),
        spaces_only := b.spaces_only && is_xml_spaces s }) := by
  cases hso : b.spaces_only <;>
    cases ht : b.text <;>
      simp [DomBuilder.feed, DomBuilder.feed_markup, DomBuilder.process,
        DomBuilder.append_text, hso, ht]

theorem feed_cdata_step (b : DomBuilder) (s : List Char) :
    b.feed (.CData s) = some (.NeedData,
      { parents := b.parents,
        text := some (b.text.getD [] ++ xml_content s),
        spaces_only := false }) := by
  cases ht : b.text <;>
    simp [DomBuilder.feed, DomBuilder.feed_markup, DomBuilder.process,
      DomBuilder.append_text, ht]

theorem feedAll_cons_ok {b b1 b2 : DomBuilder} {e : Event} {evs : List Event}
    {r : FeedResult} {rs : List FeedResult}
    (hf : b.feed e = some (r, b1)) (hrest : b1.feedAll evs = some (rs, b2)) :
    b.feedAll (e :: evs) = some (r :: rs, b2) := by
  rw [DomBuilder.feedAll, hf]
  simp only []
  rw [hrest]

theorem feed_run (evs : List Event) :
    ∀ b : DomBuilder, (∀ e ∈ evs, run_event e = true) →
      b.feedAll evs = some (List.replicate evs.length .NeedData,
        { parents := b.parents,
          text := text_after b.text evs,
          spaces_only := b.spaces_only && run_spaces_flag evs }) := by
  induction evs with
  | nil => intro b h; simp [DomBuilder.feedAll, text_after, run_spaces_flag]
  | cons e evs ih =>
    intro b h
    have he := h e (by simp)
    have hrest : ∀ x ∈ evs, run_event x = true := fun x hx => h x (by simp [hx])
    cases e with
    | Text s =>
      rw [feedAll_cons_ok (feed_text_step b s) (ih _ hrest)]
      simp [text_after, run_spaces_flag, List.replicate_succ, Bool.and_assoc]
    | CData s =>
      rw [feedAll_cons_ok (feed_cdata_step b s) (ih _ hrest)]
      simp [text_after, run_spaces_flag, List.replicate_succ]
    | Comment s =>
      rw [feedAll_cons_ok (rfl : b.feed (.Comment s) = some (.NeedData, b)) (ih _ hrest)]
      simp [text_after, run_spaces_flag, List.replicate_succ]
    | PI s =>
      rw [feedAll_cons_ok (rfl : b.feed (.PI s) = some (.NeedData, b)) (ih _ hrest)]
      simp [text_after, run_spaces_flag, List.replicate_succ]
    | Start e => simp [run_event] at he
    | End e => simp [run_event] at he
    | Empty e => simp [run_event] at he
    | Decl e => simp [run_event] at he
    | DocType e => simp [run_event] at he
    | GeneralRef e => simp [run_event] at he
    | Eof => simp [run_event] at he

theorem text_after_some (evs : List Event) :
    ∀ acc, text_after (some acc) evs = some (acc ++ run_content evs) := by
  induction evs with
  | nil => intro acc; simp [text_after, run_content]
  | cons e evs ih =>
    intro acc
    cases e <;> simp [text_after, run_content, ih, Option.getD]

theorem text_after_none (evs : List Event)
    (h : ∃ e ∈ evs, content_event e = true) :
    text_after none evs = some (run_content evs) := by
  induction evs with
  | nil => simp at h
  | cons e evs ih =>
    rcases h with ⟨x, hx, hcx⟩
    rcases List.mem_cons.1 hx with rfl | hx2
    · cases x <;> simp_all [content_event, text_after, run_content, text_after_some]
    · have ih2 := ih ⟨x, hx2, hcx⟩
      cases e <;> simp_all [text_after, run_content, text_after_some]

end QuickXml

namespace QuickXml

/-- **C4 (counterexample).** The claim says the flushed node is
`Node::Space` whenever every character of the run is XML whitespace. A run
consisting of the single CDATA event `<![CDATA[ ]]>` is all-whitespace, yet
the builder flushes `Node::Text " "`: the `CData` arm of `feed` clears
`spaces_only` unconditionally (the repository's own `cdata` unit test pins
this behaviour). -/
theorem claim_C4_counterexample :
    is_xml_spaces " ".data = true
    ∧ (DomBuilder.mk [Element.mk ⟨"tag".data, []⟩ []] none true).feedAll
        [.CData " ".data, .End "tag".data]
      = some ([.NeedData,
          .Element (Element.mk ⟨"tag".data, []⟩ [Node.text " ".data])],
          DomBuilder.mk [] none true)
    ∧ Node.text " ".data ≠ Node.space " ".data :=
  ⟨rfl, rfl, fun h => Node.noConfusion h⟩

/-- **C4 (amended).** For a run of `Text`/`CData` events, possibly
interleaved with `Comment`/`PI` events and containing at least one content
event, fed to a builder with one open element: the run itself only returns
`NeedData` and accumulates the concatenation of the decoded contents, and
the next `Start`, `End`, `Empty` or `Eof` event flushes exactly one pending
node with that concatenated content. The node is `Node.space` iff the run
contains no `CData` event and every `Text` event is all-whitespace
(`run_spaces_flag`) — not merely iff every character of the run is
whitespace — and `Node.text` otherwise; on `Eof` the pending run is
returned in the `FeedResult` instead. -/
theorem claim_C4_amended (tag : BytesStart) (children : List Node) (evs : List Event)
    (h1 : ∀ e ∈ evs, run_event e = true)
    (h2 : ∃ e ∈ evs, content_event e = true) :
    (DomBuilder.mk [Element.mk tag children] none true).feedAll evs
      = some (List.replicate evs.length .NeedData,
          DomBuilder.mk [Element.mk tag children] (some (run_content evs))
            (run_spaces_flag evs))
  ∧ (∀ n : BytesStart,
      (DomBuilder.mk [Element.mk tag children] (some (run_content evs))
          (run_spaces_flag evs)).feed (.Start n)
        = some (.NeedData, DomBuilder.mk
            [Element.mk n [],
             Element.mk tag (children ++
               [if run_spaces_flag evs then Node.space (run_content evs)
                else Node.text (run_content evs)])] none true))
  ∧ (∀ name : List Char,
      (DomBuilder.mk [Element.mk tag children] (some (run_content evs))
          (run_spaces_flag evs)).feed (.End name)
        = some (.Element (Element.mk tag (children ++
            [if run_spaces_flag evs then Node.space (run_content evs)
             else Node.text (run_content evs)])),
            DomBuilder.mk [] none true))
  ∧ (∀ n : BytesStart,
      (DomBuilder.mk [Element.mk tag children] (some (run_content evs))
          (run_spaces_flag evs)).feed (.Empty n)
        = some (.NeedData, DomBuilder.mk
            [Element.mk tag (children ++
               [if run_spaces_flag evs then Node.space (run_content evs)
                else Node.text (run_content evs),
                Node.element (Element.mk n [])])] none true))
  ∧ (DomBuilder.mk [Element.mk tag children] (some (run_content evs))
        (run_spaces_flag evs)).feed .Eof
      = some ((if run_spaces_flag evs then FeedResult.Space (run_content evs) Event.Eof
               else FeedResult.Text (run_content evs) Event.Eof),
          DomBuilder.mk [Element.mk tag children] none true) := by
  refine ⟨?_, ?_, ?_, ?_, ?_⟩
  · have hr := feed_run evs (DomBuilder.mk [Element.mk tag children] none true) h1
    rw [hr]
    simp [text_after_none evs h2]
  · intro n
    cases hf : run_spaces_flag evs <;>
      simp [DomBuilder.feed, DomBuilder.feed_markup, DomBuilder.process, Element.tag,
        Element.children]
  · intro name
    cases hf : run_spaces_flag evs <;>
      simp [DomBuilder.feed, DomBuilder.feed_markup, DomBuilder.process, Element.tag,
        Element.children]
  · intro n
    cases hf : run_spaces_flag evs <;>
      simp [DomBuilder.feed, DomBuilder.feed_markup, DomBuilder.process, Element.tag,
        Element.children]
  · cases hf : run_spaces_flag evs <;>
      simp [DomBuilder.feed, DomBuilder.feed_markup, DomBuilder.process]

/-- **C4 (witness).** The run `Text "a"`, `Comment "c"`, `CData "b"` fed
into a builder with one open `r` element accumulates `"ab"` with a cleared
`spaces_only` flag, and the following `End` flushes the single child
`Node.text "ab"`. -/
theorem claim_C4_amended_witness :
    (DomBuilder.mk [Element.mk ⟨"r".data, []⟩ []] none true).feedAll
        [.Text "a".data, .Comment "c".data, .CData "b".data]
      = some ([.NeedData, .NeedData, .NeedData],
          DomBuilder.mk [Element.mk ⟨"r".data, []⟩ []] (some "ab".data) false)
    ∧ (DomBuilder.mk [Element.mk ⟨"r".data, []⟩ []] (some "ab".data) false).feed
        (.End "r".data)
      = some (.Element (Element.mk ⟨"r".data, []⟩ [Node.text "ab".data]),
          DomBuilder.mk [] none true) := by
  have h := claim_C4_amended ⟨"r".data, []⟩ []
    [.Text "a".data, .Comment "c".data, .CData "b".data] (by decide) (by decide)
  exact ⟨h.1, h.2.2.1 "r".data⟩

end QuickXml

namespace QuickXml

/-- `TagState` from the reader (`reader/mod.rs`, used by
`reader/async_reader.rs`). -/
inductive TagState where
  | Init : TagState
  | Closed : TagState
  | Opened : TagState
  | Empty : TagState
  | Exit : TagState
deriving Repr, DecidableEq

/-- The reader state visible to `read_event_into_async`: the tag state plus
the byte source (abstracted: `σ` stands for the `AsyncBufRead` source
together with the buffer and position). -/
structure Reader (σ : Type) where
  tag_state : TagState
  source : σ

/-- `Reader::read_event_into_async` from `reader/async_reader.rs`. The four
non-`Exit` dispatch targets (`read_until_open_async` twice,
`read_until_close_async`, `close_expanded_empty`) are abstracted as the
parameter `inner`, which may consume the source, produce any event or
error, and set any intermediate tag state — exactly the latitude the
helpers have. The wrapper itself is the translated code: in `Exit` it
returns `Ok(Event::Eof)` immediately without touching the source, and it
overwrites the tag state with `Exit` whenever the produced result is an
error or `Ok(Event::Eof)`. -/
def read_event_into_async {σ ε : Type}
    (inner : TagState → σ → Except ε Event × σ × TagState)
    (r : Reader σ) : Except ε Event × Reader σ :=
  match r.tag_state with
  | .Exit => (.ok .Eof, r)
  | ts =>
    let (event, s, ts1) := inner ts r.source
    let ts2 :=
      match event with
      | .error _ => TagState.Exit
      | .ok .Eof => TagState.Exit
      | .ok _ => ts1
    (event, { tag_state := ts2, source := s })

/-- **C6.** Whatever the byte source and the reading helpers do (`inner` is
universally quantified): (a) whenever `read_event_into_async` returns an
error or `Ok(Event::Eof)`, the reader is left in the `Exit` tag state;
(b) a reader in the `Exit` state returns `Ok(Event::Eof)` with the reader —
byte source included — completely unchanged, so every subsequent call keeps
returning `Ok(Event::Eof)` without consulting the source, and the reader
never leaves `Exit`. -/
theorem claim_C6_exit_state {σ ε : Type}
    (inner : TagState → σ → Except ε Event × σ × TagState) (r : Reader σ) :
    ((∃ e, (read_event_into_async inner r).1 = .error e)
        ∨ (read_event_into_async inner r).1 = .ok .Eof →
      (read_event_into_async inner r).2.tag_state = .Exit)
    ∧ (r.tag_state = .Exit →
        read_event_into_async inner r = (.ok .Eof, r)) := by
  constructor
  · intro h
    cases hts : r.tag_state
    case Exit =>
      simp only [read_event_into_async, hts]
    all_goals
      simp only [read_event_into_async, hts] at h ⊢
      rcases hev : inner _ r.source with ⟨event, s, ts1⟩
      cases event with
      | error e => rfl
      | ok ev =>
        cases ev <;>
          first
          | rfl
          | (exfalso
             rcases h with ⟨e, he⟩ | he <;> simp_all)
  · intro h
    rw [read_event_into_async, h]

/-- **C6 (witness).** A concrete instantiation: a source over `Nat` whose
helper immediately reports end of input. After the first call the state is
`Exit`, and a reader already in `Exit` returns `Ok(Eof)` unchanged. -/
theorem claim_C6_witness :
    (read_event_into_async (σ := Nat) (ε := Unit)
        (fun _ s => (.ok .Eof, s + 1, .Closed)) ⟨.Init, 0⟩).2.tag_state = .Exit
    ∧ read_event_into_async (σ := Nat) (ε := Unit)
        (fun _ s => (.ok .Eof, s + 1, .Closed)) ⟨.Exit, 5⟩
      = (.ok .Eof, ⟨.Exit, 5⟩) :=
  ⟨(claim_C6_exit_state _ _).1 (Or.inr rfl),
   (claim_C6_exit_state _ _).2 rfl⟩

end QuickXml

namespace QuickXml

/-- Modelled from the spec: the `$text` sentinel field name (the `TEXT_KEY`
constant of the deserializer core, whose module is not under `src/`; spec
§4.7 and the glossary define the sentinel as `$text`). -/
def TEXT_KEY : List Char := "$text".data

/-- Modelled from the spec: the `$value` sentinel field name (`VALUE_KEY`,
same situation as `TEXT_KEY`). -/
def VALUE_KEY : List Char := "$value".data

/-- `DeEvent` as matched by `de/var.rs` (the defining module of the
deserializer core is not under `src/`; the four variants and their payloads
are those the source file destructures). -/
inductive DeEvent where
  | Start (e : BytesStart) : DeEvent
  | Text (s : List Char) : DeEvent
  | End (e : List Char) : DeEvent
  | Eof : DeEvent
deriving Repr, DecidableEq

/-- The deserializer errors used by the embedded fragments of `de/var.rs`
and `de/dom/map.rs` (`DeError`). -/
inductive DeError where
  | UnexpectedEof : DeError
  | KeyNotRead : DeError
deriving Repr, DecidableEq

/-- `EnumAccess::variant_seed` from `de/var.rs`. The one-event lookahead
(`self.de.peek()`) is passed in as `peeked`; driving the caller's seed with
`QNameDeserializer::from_elem` is modelled as selecting the element's
qualified name, and driving it with `BorrowedStrDeserializer::new(TEXT_KEY)`
as selecting the `$text` sentinel. The returned `Bool` is the `is_text`
flag stored in `VariantAccess`; `none` models the `unreachable!` panic on
`DeEvent::End`. -/
def variant_seed (peeked : DeEvent) : Option (Except DeError (List Char × Bool)) :=
  match peeked with
  | .Start e => some (.ok (e.name, false))
  | .Text _ => some (.ok (TEXT_KEY, true))
  | .End _ => none
  | .Eof => some (.error .UnexpectedEof)

/-- **C8.** `variant_seed` selects the variant by the element's qualified
name when the lookahead is a `Start` event (with `is_text := false`),
selects the `$text` sentinel when the lookahead is a `Text` event (with
`is_text := true`), and fails with `UnexpectedEof` when the lookahead is
`Eof`. -/
theorem claim_C8_variant_seed :
    (∀ e : BytesStart, variant_seed (.Start e) = some (.ok (e.name, false)))
    ∧ (∀ s : List Char, variant_seed (.Text s) = some (.ok ("$text".data, true)))
    ∧ variant_seed .Eof = some (.error .UnexpectedEof) :=
  ⟨fun _ => rfl, fun _ => rfl, rfl⟩

end QuickXml

namespace QuickXml

/-- Modelled from the spec: `QName::local_name` (the `name` module is not
under `src/`). Spec §3: a qualified name is `prefix:local` when a colon is
present, otherwise `local` only. -/
def local_name (q : List Char) : List Char :=
  match q.dropWhile (· != ':') with
  | [] => q
  | _ :: rest => rest

/-- The `Value` enum of `de/dom/map.rs`: what `next_key_seed` stored for
the following `next_value_seed` call. The attribute arm stores the decoded
attribute value (the source stores a byte range into the start tag). -/
inductive Value where
  | Unknown : Value
  | Attribute (v : List Char) : Value
  | Text (t : List Char) : Value
  | Value (n : Node) : Value
  | Field (e : Element) : Value

/-- `ElementMapAccess` from `de/dom/map.rs`. The attribute slice plus
`IterState` cursor is modelled as the list of remaining (name, value)
pairs; `key_buf` (a scratch `String` that receives `@` plus the attribute
name) is modelled by building the `@`-prefixed key directly. -/
structure ElementMapAccess where
  attributes : List (List Char × List Char)
  children : List Node
  skipped : List Node
  pending_value : Value
  has_text_field : Bool
  has_value_field : Bool
  fields : List (List Char)

/-- `ElementMapAccess::new` from `de/dom/map.rs`. -/
def ElementMapAccess.new (element : Element) (fields : List (List Char)) :
    ElementMapAccess :=
  { attributes := element.tag.attrs
    children := element.children
    skipped := []
    pending_value := .Unknown
    has_text_field := fields.contains TEXT_KEY
    has_value_field := fields.contains VALUE_KEY
    fields := fields }

/-- `ElementMapAccess::skip_whitespaces`: pops nodes from the front of the
children deque, dropping `Space` nodes, until a non-space node (or the end)
is reached. Returns the popped node and the remaining deque. -/
def skip_whitespaces : List Node → Option Node × List Node
  | [] => (none, [])
  | n :: rest =>
    match n with
    | .space _ => skip_whitespaces rest
    | _ => (some n, rest)

/-- `ElementMapAccess::not_in`: true iff no declared field name equals the
element's local tag name. -/
def not_in (fields : List (List Char)) (e : Element) : Bool :=
  fields.all (fun field => field != local_name e.tag.name)

/-- A key produced by `next_key_seed`: either derived from an attribute
(the `@`-prefixed attribute name fed through `QNameDeserializer::from_attr`)
or derived from a child node (the `$text` / `$value` sentinel or a child
element's qualified name). -/
inductive MapKey where
  | attribute (name : List Char) : MapKey
  | child (name : List Char) : MapKey

/-- `ElementMapAccess::next_key_seed` from `de/dom/map.rs`: first drains
the attribute iterator, producing `@`-prefixed keys; only once it is
exhausted are children consulted — a text child produces the `$text` (or
`$value`) sentinel, a child element the `$value` sentinel or its qualified
name. The `Some(Node::Space(..))` patterns of the source are mirrored even
though `skip_whitespaces` never returns a `Space` node. -/
def next_key_seed (m : ElementMapAccess) : Option MapKey × ElementMapAccess :=
  match m.attributes with
  | (aname, avalue) :: rest =>
    (some (.attribute ('@' :: aname)),
     { m with attributes := rest, pending_value := .Attribute avalue })
  | [] =>
    match skip_whitespaces m.children with
    | (some (Node.text t), rest) =>
      if m.has_value_field && !m.has_text_field then
        (some (.child VALUE_KEY),
         { m with children := rest, pending_value := .Value (Node.text t) })
      else
        (some (.child TEXT_KEY),
         { m with children := rest, pending_value := .Text t })
    | (some (Node.space t), rest) =>
      if m.has_value_field && !m.has_text_field then
        (some (.child VALUE_KEY),
         { m with children := rest, pending_value := .Value (Node.text t) })
      else
        (some (.child TEXT_KEY),
         { m with children := rest, pending_value := .Text t })
    | (some (Node.element e), rest) =>
      if m.has_value_field && not_in m.fields e then
        (some (.child VALUE_KEY),
         { m with children := rest, pending_value := .Value (Node.element e) })
      else
        (some (.child e.tag.name),
         { m with children := rest, pending_value := .Field e })
    | (none, rest) => (none, { m with children := rest })

/-- **C9.** `next_key_seed` yields every attribute of the element — as a
key formed by prepending `@` to the attribute name — before any
child-derived key: while the attribute iterator is non-empty the produced
key is the `@`-prefixed head attribute and the children (and the skip
buffer) are untouched, and a child-derived key can only be produced when
the attribute iterator is exhausted. -/
theorem claim_C9_attributes_first (m : ElementMapAccess) :
    (∀ aname avalue rest, m.attributes = (aname, avalue) :: rest →
      next_key_seed m = (some (.attribute ('@' :: aname)),
        { m with attributes := rest, pending_value := .Attribute avalue }))
    ∧ (m.attributes ≠ [] →
        (next_key_seed m).2.children = m.children
        ∧ (next_key_seed m).2.skipped = m.skipped
        ∧ ∃ aname, (next_key_seed m).1 = some (.attribute ('@' :: aname)))
    ∧ (∀ name, (next_key_seed m).1 = some (.child name) → m.attributes = []) := by
  rcases hm : m.attributes with _ | ⟨⟨aname, avalue⟩, rest⟩
  · refine ⟨?_, ?_, ?_⟩
    · intro a v r h
      exact absurd h (by simp)
    · intro h
      exact absurd rfl h
    · intro name _
      rfl
  · refine ⟨?_, ?_, ?_⟩
    · intro a v r h
      obtain ⟨⟨rfl, rfl⟩, rfl⟩ : (aname = a ∧ avalue = v) ∧ rest = r := by
        simpa using h
      simp [next_key_seed, hm]
    · intro _
      refine ⟨?_, ?_, aname, ?_⟩ <;> simp [next_key_seed, hm]
    · intro name h
      simp [next_key_seed, hm] at h

/-- **C9 (witness).** A map access with one remaining attribute `id="1"`
and a pending text child yields the attribute key `@id` first, leaving the
children untouched; and on a state whose produced key derives from a child
element, the attribute list is exhausted. -/
theorem claim_C9_witness :
    next_key_seed (ElementMapAccess.mk [("id".data, "1".data)]
        [Node.text "t".data] [] .Unknown false false [])
      = (some (.attribute "@id".data),
         ElementMapAccess.mk [] [Node.text "t".data] []
           (.Attribute "1".data) false false [])
    ∧ (ElementMapAccess.mk [] [Node.element (Element.mk ⟨"child".data, []⟩ [])]
        [] .Unknown false false []).attributes = [] := by
  constructor
  · exact (claim_C9_attributes_first _).1 "id".data "1".data [] rfl
  · exact (claim_C9_attributes_first _).2.2 "child".data rfl

end QuickXml
